import Mathlib

/-!
The De Boor style evaluator of `minispline.cpp`

A shallow embedding of the spline computation of `src/minispline.cpp`
(lines 8-75) and of the key handler of its editor (lines 112-131 and 191-244),
and theorems about them.

Modelling conventions.

* `double` is modelled by the rationals `ℚ`; infinities and NaN are not
  modelled. The evaluator `evaluateSpline` computes in exact arithmetic;
  `evaluateSplineR` is the same code with every `double` operation rounded, and
  `roundDouble` is the rounding of binary64.
* `int` is modelled by `Int`. The evaluator `evaluateSpline` computes in exact
  integers: for `t ≥ 0` and `0 ≤ order < N` every `int` it computes lies between
  `-N - 1` and `11 * N`. `mod32` and `findControlPoint32` are `mod` and
  `findControlPoint` with 32-bit arithmetic.
* `assert` is enabled: a failed assertion is the result `Err.assertion`.
* Indexing a `std::vector` outside `[0, size)` is the result `Err.bounds`.
* A `std::vector<Vec3>` is a `List Vec3`; `(int)v.size()` is `v.length`.
* The global variables of the editor are the fields of `Editor`, passed in and
  out of `onKeyDown`; `pop_back` on an empty vector is the result `Err.bounds`.
-/

namespace Minispline

/-- The two ways a call can fail: a violated `assert`, or a vector indexed
outside its bounds. -/
inductive Err where
  | assertion
  | bounds
  deriving DecidableEq, Repr

/-- `struct Vec3`: three coordinates, each defaulting to `0`. -/
structure Vec3 where
  x : ℚ := 0
  y : ℚ := 0
  z : ℚ := 0
  deriving DecidableEq, Repr

namespace Vec3

/-- `Vec3 operator + (Vec3 v) const`. -/
def add (a v : Vec3) : Vec3 := { x := a.x + v.x, y := a.y + v.y, z := a.z + v.z }

/-- `Vec3 operator * (double s) const`. -/
def mul (a : Vec3) (s : ℚ) : Vec3 := { x := a.x * s, y := a.y * s, z := a.z * s }

instance : Add Vec3 := ⟨add⟩

instance : HMul Vec3 ℚ Vec3 := ⟨mul⟩

end Vec3

/-- `double cpParam(int idx)`: the parameter value of control point `idx`. -/
def cpParam (idx : Int) : ℚ := (idx : ℚ)

/-- `double weight(int idx1, int idx2, double t)`: the assertion `t1 < t2`
guards the division. -/
def weight (idx1 idx2 : Int) (t : ℚ) : Except Err ℚ :=
  let t1 := cpParam idx1
  let t2 := cpParam idx2
  if t1 < t2 then .ok ((t - t1) / (t2 - t1)) else .error Err.assertion

/-- `T blend(double alpha, T a, T b)` at `T = Vec3`. -/
def blend (alpha : ℚ) (a b : Vec3) : Vec3 := a * (1 - alpha) + b * alpha

/-- `int mod(int val, int N)` with the sum `val + 10 * N` taken in exact integers;
`%` of C++ truncates towards zero, which is `Int.tmod`. This is the function the
evaluator calls; it is the 32-bit `mod32` below whenever `10 * N` and
`val + 10 * N` fit in an `int`. -/
def mod (val N : Int) : Int := Int.tmod (val + 10 * N) N

/-- The loop `while(t < cpParam(r)) --r;` of `findControlPoint`, started at `r`. -/
def findLoop (t : ℚ) (r : Int) : Int :=
  if t < cpParam r then findLoop t (r - 1) else r
termination_by (r - ⌊t⌋).toNat
decreasing_by
  have h : t < cpParam r := by assumption
  have h1 : ⌊t⌋ < r := by
    have h2 : (⌊t⌋ : ℚ) ≤ t := Int.floor_le t
    have h3 : ((⌊t⌋ : Int) : ℚ) < ((r : Int) : ℚ) := lt_of_le_of_lt h2 h
    exact_mod_cast h3
  omega

/-- `int findControlPoint(std::vector<Vec3> const& controlPoints, double t)`. -/
def findControlPoint (controlPoints : List Vec3) (t : ℚ) : Int :=
  let N : Int := controlPoints.length
  findLoop t (N - 1)

/-- Reading `d[k]` of a vector: defined only for `0 ≤ k < d.size()`. -/
def readAt (d : List Vec3) (k : Int) : Except Err Vec3 :=
  if 0 ≤ k then
    match d[k.toNat]? with
    | some v => .ok v
    | none => .error Err.bounds
  else .error Err.bounds

/-- Writing `d[k] = v` of a vector: defined only for `0 ≤ k < d.size()`. -/
def writeAt (d : List Vec3) (k : Int) (v : Vec3) : Except Err (List Vec3) :=
  if 0 ≤ k ∧ k < (d.length : Int) then .ok (d.set k.toNat v) else .error Err.bounds

/-- The inner loop of `evaluateSpline`,
`for(int i = ...; i <= idx; ++i) { alpha = weight(i, i + order - r, t);
tmp[mod(i, N)] = blend(alpha, d[mod(i - 1, N)], d[mod(i, N)]); }`,
from the current `i` and `tmp` on. -/
def innerLoop (N idx order r : Int) (t : ℚ) (d : List Vec3) (i : Int)
    (tmp : List Vec3) : Except Err (List Vec3) :=
  if i ≤ idx then
    match weight i (i + order - r) t with
    | .error e => .error e
    | .ok alpha =>
      match readAt d (mod (i - 1) N) with
      | .error e => .error e
      | .ok a =>
        match readAt d (mod i N) with
        | .error e => .error e
        | .ok b =>
          match writeAt tmp (mod i N) (blend alpha a b) with
          | .error e => .error e
          | .ok tmp1 => innerLoop N idx order r t d (i + 1) tmp1
  else .ok tmp
termination_by (idx + 1 - i).toNat
decreasing_by omega

/-- The outer loop of `evaluateSpline`,
`for(int r = ...; r < order; r++) { std::vector<Vec3> tmp(N); ...; d = tmp; }`,
from the current `r` and `d` on. -/
def roundLoop (N idx order : Int) (t : ℚ) (r : Int) (d : List Vec3) :
    Except Err (List Vec3) :=
  if r < order then
    match innerLoop N idx order r t d (idx - order + r)
        (List.replicate N.toNat ({} : Vec3)) with
    | .error e => .error e
    | .ok tmp => roundLoop N idx order t (r + 1) tmp
  else .ok d
termination_by (order - r).toNat
decreasing_by omega

/-- `Vec3 evaluateSpline(std::vector<Vec3> const& controlPoints, int order, double t)`. -/
def evaluateSpline (controlPoints : List Vec3) (order : Int) (t : ℚ) : Except Err Vec3 :=
  let idx := findControlPoint controlPoints t
  if idx < 0 then .error Err.assertion
  else
    let N : Int := controlPoints.length
    match roundLoop N idx order t 0 controlPoints with
    | .error e => .error e
    | .ok d => readAt d idx

/-! ## The blending recursion over unwrapped indices -/

/-- The slot of a buffer of length `N` that the unwrapped index `v` stands
for (the default point when the buffer is shorter). -/
def cyc (d : List Vec3) (N : Int) (v : Int) : Vec3 := (d[(v % N).toNat]?).getD {}

/-- The recursion of the specification over unwrapped indices, written out with
the operations of `Vec3`: `D(0, i) = P[i floor-mod N]` and
`D(r+1, i) = D(r, i-1) * (1 - a) + D(r, i) * a` with `a = (t - i) / (order - r)`. -/
def deBoor (P : List Vec3) (order : Int) (t : ℚ) : Nat → Int → Vec3
  | 0, i => cyc P (P.length : Int) i
  | r + 1, i =>
    deBoor P order t r (i - 1) * ((1 : ℚ) - (t - (i : ℚ)) / ((order : ℚ) - (r : ℚ))) +
      deBoor P order t r i * ((t - (i : ℚ)) / ((order : ℚ) - (r : ℚ)))

/-- The 32-bit `int` that holds the exact result `x` of an `int` operation:
`x` itself when `-2^31 ≤ x < 2^31`, its two's-complement wrap-around otherwise. -/
def wrapInt32 (x : Int) : Int := (x + 2147483648) % 4294967296 - 2147483648

/-- `int mod(int val, int N)` in 32-bit arithmetic: the product `10 * N` and the
sum `val + 10 * N` are `int` operations, `%` truncates towards zero. -/
def mod32 (val N : Int) : Int := Int.tmod (wrapInt32 (val + wrapInt32 (10 * N))) N

/-- The loop `while(t < cpParam(r)) --r;` of `findControlPoint` with a 32-bit `r`,
run for at most `fuel` evaluations of its condition: `some (r, n)` when the loop
exits with index `r` after `n` decrements, `none` when it is still running. -/
def scanLoop32 (t : ℚ) : Nat → Int → Option (Int × Nat)
  | 0, _ => none
  | fuel + 1, r =>
    if t < cpParam r then
      match scanLoop32 t fuel (wrapInt32 (r - 1)) with
      | some (r1, n) => some (r1, n + 1)
      | none => none
    else some (r, 0)

/-- `int findControlPoint(std::vector<Vec3> const& controlPoints, double t)` with
32-bit `N = (int)controlPoints.size()` and `r = N - 1`, and with the decrements of
the scan counted. -/
def findControlPoint32 (controlPoints : List Vec3) (t : ℚ) (fuel : Nat) :
    Option (Int × Nat) :=
  let N : Int := wrapInt32 (controlPoints.length : Int)
  scanLoop32 t fuel (wrapInt32 (N - 1))

/-! ## The evaluator with rounded arithmetic

The same functions with every `double` operation followed by a rounding `rnd`:
with `rnd = id` this is the exact arithmetic used above, with
`rnd = roundDouble` it is IEEE binary64 arithmetic in round-to-nearest-even
(overflow to infinity is not modelled). The conversion of an `int` to `double` in
`cpParam` and the comparisons are exact. -/

/-- The keys `onKeyDown` distinguishes (`SDLK_PAGEDOWN`, ...); `OTHER` is the
`default:` case of its `switch`. -/
inductive SDLKey where
  | PAGEDOWN
  | PAGEUP
  | INSERT
  | DELETE
  | LEFT
  | RIGHT
  | DOWN
  | UP
  | TAB
  | OTHER
  deriving DecidableEq, Repr

/-- The global variables of the editor: the GUI state and the curve model. -/
structure Editor where
  g_selectedFragment : Int
  g_iGrabbed : Int
  g_bGrabbed : Bool
  g_controlPoints : List Vec3
  g_curveOrder : Int
  deriving Repr

/-- `void addControlPoint()`: appends one point. The point is computed from the
current size with `sin` and `cos`; that formula is the parameter `newPoint`. -/
def addControlPoint (newPoint : Nat → Vec3) (s : Editor) : Editor :=
  { s with g_controlPoints := s.g_controlPoints ++ [newPoint s.g_controlPoints.length] }

/-- `void removeControlPoint()`: `pop_back`, which is undefined on an empty
vector and reported as `Err.bounds`. -/
def removeControlPoint (s : Editor) : Except Err Editor :=
  if s.g_controlPoints.length = 0 then .error Err.bounds
  else .ok { s with g_controlPoints := s.g_controlPoints.dropLast }

/-- The statement `g_controlPoints[g_iGrabbed].x += dx; g_controlPoints[g_iGrabbed].y += dy`
of the arrow keys (one of `dx`, `dy` is zero there). -/
def moveGrabbed (dx dy : ℚ) (s : Editor) : Except Err Editor :=
  match readAt s.g_controlPoints s.g_iGrabbed with
  | .error e => .error e
  | .ok v =>
    match writeAt s.g_controlPoints s.g_iGrabbed { v with x := v.x + dx, y := v.y + dy } with
    | .error e => .error e
    | .ok cp => .ok { s with g_controlPoints := cp }

/-- `auto clamp(T val, T min, T max)` at `T = int`. -/
def clamp (val min max : Int) : Int :=
  if val < min then min else if val > max then max else val

/-- The `switch(key)` of `onKeyDown`, with `speed = 0.02`. -/
def applyKey (newPoint : Nat → Vec3) (key : SDLKey) (shifted : Bool) (s : Editor) :
    Except Err Editor :=
  let speed : ℚ := 2 / 100
  match key with
  | .PAGEDOWN => .ok { s with g_curveOrder := s.g_curveOrder - 1 }
  | .PAGEUP => .ok { s with g_curveOrder := s.g_curveOrder + 1 }
  | .INSERT => .ok (addControlPoint newPoint s)
  | .DELETE => removeControlPoint s
  | .LEFT => moveGrabbed (-speed) 0 s
  | .RIGHT => moveGrabbed speed 0 s
  | .DOWN => moveGrabbed 0 speed s
  | .UP => moveGrabbed 0 (-speed) s
  | .TAB => .ok { s with g_selectedFragment := s.g_selectedFragment + (if shifted then -1 else 1) }
  | .OTHER => .ok s

/-- `void onKeyDown(SDLKey key, bool shifted)`: the `switch`, then the three
`clamp` assignments with `N = (int)g_controlPoints.size()`. -/
def onKeyDown (newPoint : Nat → Vec3) (key : SDLKey) (shifted : Bool) (s : Editor) :
    Except Err Editor :=
  match applyKey newPoint key shifted s with
  | .error e => .error e
  | .ok s1 =>
    let N : Int := s1.g_controlPoints.length
    .ok { s1 with
      g_iGrabbed := clamp s1.g_iGrabbed 0 (N - 1)
      g_curveOrder := clamp s1.g_curveOrder 0 (N - 1)
      g_selectedFragment := clamp s1.g_selectedFragment 0 (N - 1) }

/-! ## Basic facts -/

theorem Vec3.ext_iff3 (a b : Vec3) : a = b ↔ a.x = b.x ∧ a.y = b.y ∧ a.z = b.z := by
  cases a; cases b; simp

theorem blend_x (alpha : ℚ) (a b : Vec3) :
    (blend alpha a b).x = a.x * (1 - alpha) + b.x * alpha := rfl

theorem blend_y (alpha : ℚ) (a b : Vec3) :
    (blend alpha a b).y = a.y * (1 - alpha) + b.y * alpha := rfl

theorem blend_z (alpha : ℚ) (a b : Vec3) :
    (blend alpha a b).z = a.z * (1 - alpha) + b.z * alpha := rfl

theorem deBoor_zero (P : List Vec3) (order : Int) (t : ℚ) (i : Int) :
    deBoor P order t 0 i = cyc P (P.length : Int) i := rfl

/-- One step of the recursion is one call of the program's `blend`. -/
theorem deBoor_succ (P : List Vec3) (order : Int) (t : ℚ) (r : Nat) (i : Int) :
    deBoor P order t (r + 1) i =
      blend ((t - (i : ℚ)) / ((order : ℚ) - (r : ℚ))) (deBoor P order t r (i - 1))
        (deBoor P order t r i) := rfl

theorem mod_eq_emod (val N : Int) (hN : 0 < N) (h : -(10 * N) ≤ val) :
    mod val N = val % N := by
  unfold mod
  rw [Int.tmod_eq_emod (by omega) (by omega)]
  have : val + 10 * N = val + N * 10 := by ring
  rw [this, Int.add_mul_emod_self_left]

theorem findLoop_eq (t : ℚ) (r : Int) : findLoop t r = min r ⌊t⌋ := by
  generalize h : (r - ⌊t⌋).toNat = n
  induction n generalizing r with
  | zero =>
    rw [findLoop]
    have hr : r ≤ ⌊t⌋ := by omega
    have hrt : ¬ t < cpParam r := by
      have h1 : ((r : Int) : ℚ) ≤ t := Int.le_floor.mp hr
      simpa [cpParam] using h1
    simp [hrt, hr]
  | succ n ih =>
    rw [findLoop]
    have hr : ⌊t⌋ < r := by omega
    have hrt : t < cpParam r := by
      have h1 : t < ((r : Int) : ℚ) := Int.floor_lt.mp hr
      simpa [cpParam] using h1
    simp only [hrt, if_true]
    rw [ih (r - 1) (by omega)]
    omega

theorem findControlPoint_eq (P : List Vec3) (t : ℚ) :
    findControlPoint P t = min ((P.length : Int) - 1) ⌊t⌋ := by
  simp [findControlPoint, findLoop_eq]

/-! ## Buffers read and written through wrapped indices -/

theorem readAt_emod (d : List Vec3) (N v : Int) (hN : 0 < N)
    (hd : (d.length : Int) = N) : readAt d (v % N) = .ok (cyc d N v) := by
  have h0 : 0 ≤ v % N := Int.emod_nonneg _ (ne_of_gt hN)
  have hlt : v % N < N := Int.emod_lt_of_pos _ hN
  have hb : (v % N).toNat < d.length := by omega
  simp [readAt, cyc, h0, List.getElem?_eq_getElem hb]

theorem readAt_inRange (d : List Vec3) (N k : Int) (h0 : 0 ≤ k) (hk : k < N)
    (hd : (d.length : Int) = N) : readAt d k = .ok (cyc d N k) := by
  have h := readAt_emod d N k (by omega) hd
  rwa [Int.emod_eq_of_lt h0 hk] at h

theorem writeAt_emod (tmp : List Vec3) (N v : Int) (x : Vec3) (hN : 0 < N)
    (hd : (tmp.length : Int) = N) :
    writeAt tmp (v % N) x = .ok (tmp.set (v % N).toNat x) := by
  have h0 : 0 ≤ v % N := Int.emod_nonneg _ (ne_of_gt hN)
  have hlt : v % N < N := Int.emod_lt_of_pos _ hN
  simp [writeAt, h0, hd, hlt]

theorem cyc_set_same (tmp : List Vec3) (N v : Int) (x : Vec3) (hN : 0 < N)
    (hd : (tmp.length : Int) = N) : cyc (tmp.set (v % N).toNat x) N v = x := by
  have h0 : 0 ≤ v % N := Int.emod_nonneg _ (ne_of_gt hN)
  have hlt : v % N < N := Int.emod_lt_of_pos _ hN
  have hb : (v % N).toNat < tmp.length := by omega
  simp [cyc, List.getElem?_set_self, hb]

theorem cyc_set_other (tmp : List Vec3) (N v j : Int) (x : Vec3) (hN : 0 < N)
    (hne : v % N ≠ j % N) : cyc (tmp.set (v % N).toNat x) N j = cyc tmp N j := by
  have h0 : 0 ≤ v % N := Int.emod_nonneg _ (ne_of_gt hN)
  have h1 : 0 ≤ j % N := Int.emod_nonneg _ (ne_of_gt hN)
  have hb : (v % N).toNat ≠ (j % N).toNat := by omega
  simp [cyc, List.getElem?_set_ne hb]

theorem emod_ne_of_near (N i k : Int) (h1 : i < k) (h2 : k - i < N) : k % N ≠ i % N := by
  intro h
  have h3 : (k - i) % N = 0 := Int.emod_eq_emod_iff_emod_sub_eq_zero.mp h
  have h4 : N ∣ k - i := Int.dvd_of_emod_eq_zero h3
  have h5 : N ≤ k - i := Int.le_of_dvd (by omega) h4
  omega

theorem weight_eq (i order r : Int) (t : ℚ) (hr : r < order) :
    weight i (i + order - r) t = .ok ((t - (i : ℚ)) / ((order : ℚ) - (r : ℚ))) := by
  have h : cpParam i < cpParam (i + order - r) := by
    simp only [cpParam]
    exact_mod_cast (by omega : i < i + order - r)
  simp only [weight, h, if_true]
  congr 2
  simp only [cpParam]
  push_cast
  ring

/-! ## The loops of the evaluator -/

/-- One run of the inner loop over a window `i .. idx` of at most `N` unwrapped
indices: every slot of the window receives the blend of its two sources in `d`,
and no other slot of `tmp` changes. -/
theorem innerLoop_spec (N idx order r : Int) (t : ℚ) (d : List Vec3) (hN : 0 < N)
    (hd : (d.length : Int) = N) (hr : r < order) (n : Nat) :
    ∀ (i : Int) (tmp : List Vec3), (tmp.length : Int) = N → idx + 1 - i = (n : Int) →
      -(10 * N) ≤ i - 1 → (n : Int) ≤ N →
      ∃ out, innerLoop N idx order r t d i tmp = .ok out ∧ (out.length : Int) = N ∧
        (∀ j, i ≤ j → j ≤ idx → cyc out N j =
          blend ((t - (j : ℚ)) / ((order : ℚ) - (r : ℚ))) (cyc d N (j - 1)) (cyc d N j)) ∧
        (∀ j, (∀ k, i ≤ k → k ≤ idx → k % N ≠ j % N) → cyc out N j = cyc tmp N j) := by
  induction n with
  | zero =>
    intro i tmp htmp hi _ _
    refine ⟨tmp, ?_, htmp, ?_, ?_⟩
    · rw [innerLoop]
      have : ¬ i ≤ idx := by omega
      simp [this]
    · intro j h1 h2
      omega
    · intro j _
      rfl
  | succ n ih =>
    intro i tmp htmp hi hlo hn
    have hle : i ≤ idx := by omega
    have hw := writeAt_emod tmp N i
      (blend ((t - (i : ℚ)) / ((order : ℚ) - (r : ℚ))) (cyc d N (i - 1)) (cyc d N i)) hN htmp
    obtain ⟨out, hout, hlen, hwin, hframe⟩ := ih (i + 1)
      (tmp.set (i % N).toNat
        (blend ((t - (i : ℚ)) / ((order : ℚ) - (r : ℚ))) (cyc d N (i - 1)) (cyc d N i)))
      (by simpa using htmp) (by push_cast at hi ⊢; omega) (by omega) (by push_cast at hn ⊢; omega)
    refine ⟨out, ?_, hlen, ?_, ?_⟩
    · rw [innerLoop]
      simp only [hle, if_true, weight_eq i order r t hr]
      rw [mod_eq_emod (i - 1) N hN hlo, mod_eq_emod i N hN (by omega)]
      simp only [readAt_emod d N _ hN hd, hw]
      exact hout
    · intro j h1 h2
      rcases eq_or_lt_of_le h1 with h | h
      · subst h
        rw [hframe i]
        · exact cyc_set_same tmp N i _ hN htmp
        · intro k hk1 hk2
          exact emod_ne_of_near N i k (by omega) (by push_cast at hn hi; omega)
      · exact hwin j (by omega) h2
    · intro j hj
      rw [hframe j (fun k hk1 hk2 => hj k (by omega) hk2)]
      exact cyc_set_other tmp N i j _ hN (hj i le_rfl hle)

/-- The rounds `r, r+1, ..., order-1` of the evaluator, started on a buffer whose
window `idx-order+r-1 .. idx` holds round `r` of the recursion, succeed and leave
round `order` of the recursion in the slot of `idx`. -/
theorem roundLoop_spec (P : List Vec3) (idx order : Int) (t : ℚ)
    (hN : 0 < (P.length : Int)) (hidx0 : 0 ≤ idx) (ho : order < (P.length : Int)) (m : Nat) :
    ∀ (r : Nat) (d : List Vec3), (d.length : Int) = (P.length : Int) →
      order - (r : Int) = (m : Int) →
      (∀ j, idx - order + (r : Int) - 1 ≤ j → j ≤ idx →
        cyc d (P.length : Int) j = deBoor P order t r j) →
      ∃ out, roundLoop (P.length : Int) idx order t (r : Int) d = .ok out ∧
        (out.length : Int) = (P.length : Int) ∧
        cyc out (P.length : Int) idx = deBoor P order t order.toNat idx := by
  induction m with
  | zero =>
    intro r d hd hm hinv
    refine ⟨d, ?_, hd, ?_⟩
    · rw [roundLoop]
      have : ¬ (r : Int) < order := by push_cast at hm; omega
      simp [this]
    · have h1 : order.toNat = r := by push_cast at hm; omega
      rw [h1]
      exact hinv idx (by push_cast at hm; omega) le_rfl
  | succ m ih =>
    intro r d hd hm hinv
    have hr : (r : Int) < order := by push_cast at hm; omega
    obtain ⟨tmp, htmp, hlen, hwin, _⟩ := innerLoop_spec (P.length : Int) idx order (r : Int) t d
      hN hd hr (m + 2) (idx - order + (r : Int))
      (List.replicate (P.length : Int).toNat ({} : Vec3)) (by simp)
      (by push_cast at hm ⊢; omega) (by omega) (by push_cast at hm ⊢; omega)
    obtain ⟨out, hout, hlen2, hres⟩ := ih (r + 1) tmp hlen (by push_cast at hm ⊢; omega)
      (by
        intro j h1 h2
        rw [hwin j (by push_cast at h1; omega) h2, deBoor_succ,
          hinv (j - 1) (by push_cast at h1; omega) (by omega),
          hinv j (by push_cast at h1; omega) h2]
        simp)
    refine ⟨out, ?_, hlen2, hres⟩
    rw [roundLoop]
    simp only [hr, if_true, htmp]
    have h2 : ((r : Int) + 1) = ((r + 1 : Nat) : Int) := by push_cast; rfl
    rw [h2]
    exact hout

/-- The evaluator computes the recursion over unwrapped indices at the located
index, for every order below the number of control points. -/
theorem evaluateSpline_eq_deBoor (P : List Vec3) (order : Int) (t : ℚ)
    (hN : 1 ≤ P.length) (ho0 : 0 ≤ order) (ho : order < (P.length : Int)) (ht : 0 ≤ t) :
    evaluateSpline P order t =
      .ok (deBoor P order t order.toNat (findControlPoint P t)) := by
  have hfl : 0 ≤ ⌊t⌋ := Int.floor_nonneg.mpr ht
  have hidx0 : 0 ≤ findControlPoint P t := by
    rw [findControlPoint_eq]
    omega
  have hidx1 : findControlPoint P t < (P.length : Int) := by
    rw [findControlPoint_eq]
    omega
  obtain ⟨out, hout, hlen, hres⟩ := roundLoop_spec P (findControlPoint P t) order t
    (by omega) hidx0 ho order.toNat 0 P rfl (by simp; omega)
    (by intro j _ _; rfl)
  have hnot : ¬ findControlPoint P t < 0 := by omega
  simp only [evaluateSpline, hnot, if_false]
  have h0 : ((0 : Nat) : Int) = 0 := rfl
  rw [h0] at hout
  rw [hout]
  simp only []
  rw [readAt_inRange out (P.length : Int) _ hidx0 hidx1 hlen, hres]

theorem getElem?_emod (P : List Vec3) (v : Int) (hN : 0 < (P.length : Int)) :
    P[(v % (P.length : Int)).toNat]? = some (cyc P (P.length : Int) v) := by
  have h0 : 0 ≤ v % (P.length : Int) := Int.emod_nonneg _ (ne_of_gt hN)
  have hlt : v % (P.length : Int) < (P.length : Int) := Int.emod_lt_of_pos _ hN
  have hb : (v % (P.length : Int)).toNat < P.length := by omega
  simp [cyc, List.getElem?_eq_getElem hb]

theorem getElem?_inRange (P : List Vec3) (k : Int) (h0 : 0 ≤ k) (hk : k < (P.length : Int)) :
    P[k.toNat]? = some (cyc P (P.length : Int) k) := by
  have h := getElem?_emod P k (by omega)
  rwa [Int.emod_eq_of_lt h0 hk] at h

theorem findControlPoint_of_floor (P : List Vec3) (t : ℚ) (i : Int)
    (hi : i < (P.length : Int)) (ht0 : (i : ℚ) ≤ t) (ht1 : t < (i : ℚ) + 1) :
    findControlPoint P t = i := by
  have hf : ⌊t⌋ = i := Int.floor_eq_iff.mpr ⟨ht0, ht1⟩
  rw [findControlPoint_eq, hf]
  omega

theorem roundLoop_order_nonpos (N idx order : Int) (t : ℚ) (d : List Vec3) (ho : order ≤ 0) :
    roundLoop N idx order t 0 d = .ok d := by
  rw [roundLoop]
  simp [not_lt.mpr ho]

/-! ## The recursion under a shift by whole periods, and at a knot -/

theorem wrapInt32_of_inRange (x : Int) (h0 : -2147483648 ≤ x) (h1 : x ≤ 2147483647) :
    wrapInt32 x = x := by
  unfold wrapInt32
  omega

theorem wrapInt32_inRange (x : Int) :
    -2147483648 ≤ wrapInt32 x ∧ wrapInt32 x ≤ 2147483647 := by
  unfold wrapInt32
  omega

theorem mod32_eq_mod (val N : Int) (h0 : 0 ≤ N) (h10 : 10 * N ≤ 2147483647)
    (hlo : -2147483648 ≤ val + 10 * N) (hhi : val + 10 * N ≤ 2147483647) :
    mod32 val N = mod val N := by
  unfold mod32 mod
  rw [wrapInt32_of_inRange (10 * N) (by omega) h10, wrapInt32_of_inRange _ hlo hhi]

/-- C2, as stated, fails at both ends of the `int` range of the sum
`val + 10 * N`: `mod(-21, 2)` is `-1` (the sum is negative), and
`mod(2147483647, 7)` is `-3` (the sum overflows), where the floor-modulo is `1` in
both cases. -/
theorem mod32_counterexample :
    mod32 (-21) 2 = -1 ∧ ¬ (0 ≤ mod32 (-21) 2) ∧ mod32 (-21) 2 ≠ Int.fmod (-21) 2 ∧
      mod32 2147483647 7 = -3 ∧ ¬ (0 ≤ mod32 2147483647 7) ∧
      mod32 2147483647 7 ≠ Int.fmod 2147483647 7 := by
  decide

/-- C2 (amended): for `N > 0` with `10 * N ≤ 2^31 - 1` and every index `val` with
`-10 * N ≤ val ≤ 2^31 - 1 - 10 * N` (so that the 32-bit sum `val + 10 * N` is
non-negative and does not overflow), `mod(val, N)` is the unique `r` with
`0 ≤ r < N` congruent to `val` modulo `N`, that is the floor-modulo of `val` by
`N`. -/
theorem mod32_is_floor_mod (val N : Int) (hN : 0 < N) (h10 : 10 * N ≤ 2147483647)
    (hlo : -(10 * N) ≤ val) (hhi : val ≤ 2147483647 - 10 * N) :
    0 ≤ mod32 val N ∧ mod32 val N < N ∧ mod32 val N ≡ val [ZMOD N] ∧
      (∀ r : Int, 0 ≤ r → r < N → r ≡ val [ZMOD N] → r = mod32 val N) ∧
      mod32 val N = Int.fmod val N ∧ mod32 val N = mod val N := by
  have h32 := mod32_eq_mod val N (le_of_lt hN) h10 (by omega) (by omega)
  rw [h32, mod_eq_emod val N hN hlo]
  refine ⟨Int.emod_nonneg _ (ne_of_gt hN), Int.emod_lt_of_pos _ hN, Int.mod_modEq val N, ?_,
    (Int.fmod_eq_emod val (le_of_lt hN)).symm, rfl⟩
  intro r hr0 hr1 hr
  have h : r % N = val % N := hr
  rwa [Int.emod_eq_of_lt hr0 hr1] at h

/-- C2 (amended), at `val = -7` and `N = 4`. -/
theorem mod32_is_floor_mod_witness :
    (0 : Int) < 4 ∧ 10 * (4 : Int) ≤ 2147483647 ∧ -(10 * (4 : Int)) ≤ -7 ∧
      (-7 : Int) ≤ 2147483647 - 10 * 4 ∧
      (0 ≤ mod32 (-7) 4 ∧ mod32 (-7) 4 < 4 ∧ mod32 (-7) 4 ≡ -7 [ZMOD 4] ∧
        (∀ r : Int, 0 ≤ r → r < 4 → r ≡ -7 [ZMOD 4] → r = mod32 (-7) 4) ∧
        mod32 (-7) 4 = Int.fmod (-7) 4 ∧ mod32 (-7) 4 = mod (-7) 4) :=
  ⟨by decide, by decide, by decide, by decide,
    mod32_is_floor_mod (-7) 4 (by decide) (by decide) (by decide) (by decide)⟩

/-- C3, as stated, fails on the four points with `x = 0, 1, 2, 3`: the evaluator
returns `x = 1/2`, the claimed blend of `(P0, P1)` and `(P1, P2)` has `x = 1`. -/
theorem order_two_scenario_counterexample :
    evaluateSpline [{ x := 0 }, { x := 1 }, { x := 2 }, { x := 3 }] 2 (3 / 2) =
        .ok { x := 1 / 2 } ∧
      evaluateSpline [{ x := 0 }, { x := 1 }, { x := 2 }, { x := 3 }] 2 (3 / 2) ≠
        .ok (blend (1 / 2) (blend (3 / 4) { x := 0 } { x := 1 })
          (blend (1 / 4) { x := 1 } { x := 2 })) := by
  have hf : ⌊(3 / 2 : ℚ)⌋ = 1 := by
    rw [Int.floor_eq_iff]; norm_num
  have h : evaluateSpline [{ x := 0 }, { x := 1 }, { x := 2 }, { x := 3 }] 2 (3 / 2) =
      .ok { x := 1 / 2 } := by
    rw [evaluateSpline_eq_deBoor _ _ _ (by simp) (by norm_num) (by simp) (by norm_num)]
    simp [findControlPoint_eq, hf, deBoor_zero, deBoor_succ, cyc, Vec3.ext_iff3, blend_x, blend_y, blend_z]
    norm_num
  refine ⟨h, ?_⟩
  rw [h]
  intro h2
  have h3 := congrArg (fun e => match e with | .ok v => Vec3.x v | .error _ => 0) h2
  simp only [blend_x] at h3
  norm_num at h3

/-- C3 (amended): on four control points, order 2 and `t = 3/2`, round 0 forms
`Q(-1)` from `(P2, P3)`, `Q0` from `(P3, P0)` and `Q1` from `(P0, P1)` with
`alpha = weight(i, i+2, 3/2)`, and round 1 forms the result from `(Q0, Q1)` with
`alpha = weight(1, 2, 3/2)`: the evaluator returns
`blend(1/2, blend(3/4, P3, P0), blend(1/4, P0, P1))`. -/
theorem evaluateSpline_order_two_scenario (P0 P1 P2 P3 : Vec3) :
    weight (-1) (-1 + 2 - 0) (3 / 2) = .ok (5 / 4) ∧ weight 0 (0 + 2 - 0) (3 / 2) = .ok (3 / 4) ∧
      weight 1 (1 + 2 - 0) (3 / 2) = .ok (1 / 4) ∧ weight 1 (1 + 2 - 1) (3 / 2) = .ok (1 / 2) ∧
      innerLoop 4 1 2 0 (3 / 2) [P0, P1, P2, P3] (1 - 2 + 0) (List.replicate 4 {}) =
        .ok [blend (3 / 4) P3 P0, blend (1 / 4) P0 P1, {}, blend (5 / 4) P2 P3] ∧
      evaluateSpline [P0, P1, P2, P3] 2 (3 / 2) =
        .ok (blend (1 / 2) (blend (3 / 4) P3 P0) (blend (1 / 4) P0 P1)) := by
  have hf : ⌊(3 / 2 : ℚ)⌋ = 1 := by
    rw [Int.floor_eq_iff]; norm_num
  have tm38 : Int.tmod 38 4 = 2 := by decide
  have tm39 : Int.tmod 39 4 = 3 := by decide
  have tm40 : Int.tmod 40 4 = 0 := by decide
  have tm41 : Int.tmod 41 4 = 1 := by decide
  refine ⟨?_, ?_, ?_, ?_, ?_, ?_⟩
  · norm_num [weight, cpParam]
  · norm_num [weight, cpParam]
  · norm_num [weight, cpParam]
  · norm_num [weight, cpParam]
  · rw [innerLoop]
    simp [weight, cpParam, mod, readAt, writeAt, tm38, tm39, tm40, tm41]
    rw [innerLoop]
    simp [weight, cpParam, mod, readAt, writeAt, tm38, tm39, tm40, tm41]
    rw [innerLoop]
    simp [weight, cpParam, mod, readAt, writeAt, tm38, tm39, tm40, tm41]
    rw [innerLoop]
    simp [weight, cpParam, mod, readAt, writeAt, tm38, tm39, tm40, tm41]
    norm_num
  · rw [evaluateSpline_eq_deBoor _ _ _ (by simp) (by norm_num) (by simp) (by norm_num)]
    simp [findControlPoint_eq, hf, deBoor_zero, deBoor_succ, cyc]
    norm_num

/-- C4: for at least one control point, `order ≤ 0` and `t ≥ 0` the evaluator
runs no blending round and returns the located control point unchanged; for
order 0 and `t = i` with `0 ≤ i < N` it returns control point `i`. -/
theorem evaluateSpline_order_nonpos (P : List Vec3) (order : Int) (t : ℚ)
    (hN : 1 ≤ P.length) (ho : order ≤ 0) (ht : 0 ≤ t) :
    roundLoop (P.length : Int) (findControlPoint P t) order t 0 P = .ok P ∧
      (∃ p, 0 ≤ findControlPoint P t ∧ P[(findControlPoint P t).toNat]? = some p ∧
        evaluateSpline P order t = .ok p) ∧
      (∀ (i : Int) (p : Vec3), 0 ≤ i → i < (P.length : Int) → P[i.toNat]? = some p →
        evaluateSpline P 0 (i : ℚ) = .ok p) := by
  have key : ∀ (o : Int) (s : ℚ), o ≤ 0 → 0 ≤ s →
      0 ≤ findControlPoint P s ∧
        P[(findControlPoint P s).toNat]? = some (cyc P (P.length : Int) (findControlPoint P s)) ∧
        evaluateSpline P o s = .ok (cyc P (P.length : Int) (findControlPoint P s)) := by
    intro o s ho hs
    have hfl : 0 ≤ ⌊s⌋ := Int.floor_nonneg.mpr hs
    have h0 : 0 ≤ findControlPoint P s := by
      rw [findControlPoint_eq]; omega
    have h1 : findControlPoint P s < (P.length : Int) := by
      rw [findControlPoint_eq]; omega
    refine ⟨h0, getElem?_inRange P _ h0 h1, ?_⟩
    have hnot : ¬ findControlPoint P s < 0 := by omega
    simp only [evaluateSpline, hnot, if_false, roundLoop_order_nonpos _ _ o s P ho]
    exact readAt_inRange P (P.length : Int) _ h0 h1 rfl
  refine ⟨roundLoop_order_nonpos _ _ order t P ho, ?_, ?_⟩
  · obtain ⟨h0, h1, h2⟩ := key order t ho ht
    exact ⟨_, h0, h1, h2⟩
  · intro i p hi0 hi hp
    obtain ⟨_, h1, h2⟩ := key 0 (i : ℚ) le_rfl (by exact_mod_cast hi0)
    have hfi : findControlPoint P (i : ℚ) = i :=
      findControlPoint_of_floor P (i : ℚ) i hi le_rfl (by linarith)
    rw [hfi] at h1 h2
    rw [h2]
    rw [hp] at h1
    injection h1 with h1
    rw [h1]

/-- C4, at two control points, order `-1` and `t = 5/2`. -/
theorem evaluateSpline_order_nonpos_witness :
    roundLoop (([({ x := 3 } : Vec3), { y := 5 }].length : Nat) : Int)
        (findControlPoint [{ x := 3 }, { y := 5 }] (5 / 2)) (-1) (5 / 2) 0
        [{ x := 3 }, { y := 5 }] = .ok [{ x := 3 }, { y := 5 }] ∧
      (∃ p, 0 ≤ findControlPoint [{ x := 3 }, { y := 5 }] (5 / 2) ∧
        [({ x := 3 } : Vec3), { y := 5 }][(findControlPoint [{ x := 3 }, { y := 5 }]
          (5 / 2)).toNat]? = some p ∧
        evaluateSpline [{ x := 3 }, { y := 5 }] (-1) (5 / 2) = .ok p) ∧
      (∀ (i : Int) (p : Vec3), 0 ≤ i →
        i < (([({ x := 3 } : Vec3), { y := 5 }].length : Nat) : Int) →
        [({ x := 3 } : Vec3), { y := 5 }][i.toNat]? = some p →
        evaluateSpline [{ x := 3 }, { y := 5 }] 0 (i : ℚ) = .ok p) :=
  evaluateSpline_order_nonpos [{ x := 3 }, { y := 5 }] (-1) (5 / 2) (by simp) (by decide)
    (by norm_num)

/-- C7: for at least one control point and `t ≥ 0`, `findControlPoint` returns the
largest integer `r ≤ N-1` with `cpParam(r) ≤ t`; hence `0 ≤ r ≤ N-1`, and
`r = floor(t)` whenever `t < N`. -/
theorem findControlPoint_largest (P : List Vec3) (t : ℚ) (hN : 1 ≤ P.length) (ht : 0 ≤ t) :
    findControlPoint P t ≤ (P.length : Int) - 1 ∧ cpParam (findControlPoint P t) ≤ t ∧
      (∀ s : Int, s ≤ (P.length : Int) - 1 → cpParam s ≤ t → s ≤ findControlPoint P t) ∧
      0 ≤ findControlPoint P t ∧
      (t < ((P.length : Int) : ℚ) → findControlPoint P t = ⌊t⌋) := by
  have hfl : 0 ≤ ⌊t⌋ := Int.floor_nonneg.mpr ht
  rw [findControlPoint_eq]
  refine ⟨min_le_left _ _, ?_, ?_, by omega, ?_⟩
  · have h1 : ((min ((P.length : Int) - 1) ⌊t⌋ : Int) : ℚ) ≤ ((⌊t⌋ : Int) : ℚ) := by
      exact_mod_cast min_le_right _ _
    exact le_trans h1 (Int.floor_le t)
  · intro s hs hst
    have h1 : s ≤ ⌊t⌋ := Int.le_floor.mpr hst
    exact le_min hs h1
  · intro htN
    have h1 : ⌊t⌋ < (P.length : Int) := Int.floor_lt.mpr htN
    omega

/-- C7, at three control points and `t = 3/2`. -/
theorem findControlPoint_largest_witness :
    findControlPoint [{ x := 0 }, { x := 1 }, { y := 1 }] (3 / 2) ≤
        (([({ x := 0 } : Vec3), { x := 1 }, { y := 1 }].length : Nat) : Int) - 1 ∧
      cpParam (findControlPoint [{ x := 0 }, { x := 1 }, { y := 1 }] (3 / 2)) ≤ 3 / 2 ∧
      (∀ s : Int, s ≤ (([({ x := 0 } : Vec3), { x := 1 }, { y := 1 }].length : Nat) : Int) - 1 →
        cpParam s ≤ 3 / 2 → s ≤ findControlPoint [{ x := 0 }, { x := 1 }, { y := 1 }] (3 / 2)) ∧
      0 ≤ findControlPoint [{ x := 0 }, { x := 1 }, { y := 1 }] (3 / 2) ∧
      ((3 / 2 : ℚ) < ((([({ x := 0 } : Vec3), { x := 1 }, { y := 1 }].length : Nat) : Int) : ℚ) →
        findControlPoint [{ x := 0 }, { x := 1 }, { y := 1 }] (3 / 2) = ⌊(3 / 2 : ℚ)⌋) :=
  findControlPoint_largest [{ x := 0 }, { x := 1 }, { y := 1 }] (3 / 2) (by simp) (by norm_num)

/-- C9: for integers `i1 < i2`, `weight(i1, i2, t)` returns `(t - i1) / (i2 - i1)`
for every `t`: an affine function of `t` with slope `1 / (i2 - i1)` that is `0` at
`t = i1`, `1` at `t = i2`, negative below `i1` and above `1` beyond `i2`. -/
theorem weight_affine (i1 i2 : Int) (h : i1 < i2) :
    ∃ w : ℚ → ℚ, (∀ t, weight i1 i2 t = .ok (w t)) ∧
      (∀ t, w t = (t - (i1 : ℚ)) / ((i2 : ℚ) - (i1 : ℚ))) ∧
      w (i1 : ℚ) = 0 ∧ w (i2 : ℚ) = 1 ∧
      (∀ s t, w t - w s = (1 / ((i2 : ℚ) - (i1 : ℚ))) * (t - s)) ∧
      (∀ t, t < (i1 : ℚ) → w t < 0) ∧ (∀ t, (i2 : ℚ) < t → 1 < w t) := by
  have hq : (i1 : ℚ) < (i2 : ℚ) := by exact_mod_cast h
  have hpos : (0 : ℚ) < (i2 : ℚ) - (i1 : ℚ) := by linarith
  refine ⟨fun t => (t - (i1 : ℚ)) / ((i2 : ℚ) - (i1 : ℚ)), ?_, fun _ => rfl, ?_, ?_, ?_, ?_, ?_⟩
  · intro t
    simp [weight, cpParam, hq]
  · simp
  · exact div_self (ne_of_gt hpos)
  · intro s t
    field_simp
  · intro t ht
    exact div_neg_of_neg_of_pos (by linarith) hpos
  · intro t ht
    rw [lt_div_iff₀ hpos]
    linarith

/-- C9, at `i1 = 2` and `i2 = 5`. -/
theorem weight_affine_witness :
    ∃ w : ℚ → ℚ, (∀ t, weight 2 5 t = .ok (w t)) ∧
      (∀ t, w t = (t - ((2 : Int) : ℚ)) / (((5 : Int) : ℚ) - ((2 : Int) : ℚ))) ∧
      w ((2 : Int) : ℚ) = 0 ∧ w ((5 : Int) : ℚ) = 1 ∧
      (∀ s t, w t - w s = (1 / (((5 : Int) : ℚ) - ((2 : Int) : ℚ))) * (t - s)) ∧
      (∀ t, t < ((2 : Int) : ℚ) → w t < 0) ∧ (∀ t, ((5 : Int) : ℚ) < t → 1 < w t) :=
  weight_affine 2 5 (by decide)

/-- C10: `weight(i1, i2, t)` fails its assertion, returning no value, exactly
when `i1 ≥ i2`, for every `t`; whenever it returns a value the divisor
`cpParam(i2) - cpParam(i1)` is not zero. -/
theorem weight_fails_iff (i1 i2 : Int) (t : ℚ) :
    (weight i1 i2 t = .error Err.assertion ↔ i2 ≤ i1) ∧
      ((∀ v, weight i1 i2 t ≠ .ok v) ↔ i2 ≤ i1) ∧
      (∀ v, weight i1 i2 t = .ok v →
        cpParam i2 - cpParam i1 ≠ 0 ∧ v = (t - cpParam i1) / (cpParam i2 - cpParam i1)) := by
  by_cases h : i1 < i2
  · have hq : cpParam i1 < cpParam i2 := by
      simp only [cpParam]
      exact_mod_cast h
    have hw : weight i1 i2 t = .ok ((t - cpParam i1) / (cpParam i2 - cpParam i1)) := by
      simp [weight, hq]
    rw [hw]
    refine ⟨?_, ?_, ?_⟩
    · constructor
      · intro h1
        cases h1
      · intro h1
        omega
    · constructor
      · intro h1
        exact absurd rfl (h1 _)
      · intro h1
        omega
    · intro v hv
      injection hv with hv
      exact ⟨ne_of_gt (by linarith), hv.symm⟩
  · have hq : ¬ cpParam i1 < cpParam i2 := by
      simp only [cpParam]
      intro h1
      exact h (by exact_mod_cast h1)
    have hw : weight i1 i2 t = .error Err.assertion := by
      simp [weight, hq]
    rw [hw]
    refine ⟨?_, ?_, ?_⟩
    · exact ⟨fun _ => by omega, fun _ => rfl⟩
    · constructor
      · intro _
        omega
      · intro _ v hv
        cases hv
    · intro v hv
      cases hv

/-! ## Which failures the loops can report -/

theorem scanLoop32_returns (t : ℚ) (hlo : -2147483648 ≤ ⌊t⌋) (fuel : Nat) :
    ∀ r : Int, r ≤ 2147483647 → (r - ⌊t⌋).toNat < fuel →
      scanLoop32 t fuel r = some (min r ⌊t⌋, (r - ⌊t⌋).toNat) := by
  induction fuel with
  | zero =>
    intro r _ h
    omega
  | succ fuel ih =>
    intro r hr h
    unfold scanLoop32
    by_cases hrt : ⌊t⌋ < r
    · have hq : t < cpParam r := by
        have h1 : t < ((r : Int) : ℚ) := Int.floor_lt.mp hrt
        simpa [cpParam] using h1
      simp only [hq, if_true]
      rw [wrapInt32_of_inRange (r - 1) (by omega) (by omega), ih (r - 1) (by omega) (by omega)]
      simp only [Option.some.injEq, Prod.mk.injEq]
      omega
    · have hq : ¬ t < cpParam r := by
        have h1 : ((r : Int) : ℚ) ≤ t := Int.le_floor.mp (by omega)
        simpa [cpParam] using h1
      simp only [hq, if_false, Option.some.injEq, Prod.mk.injEq]
      omega

theorem scanLoop32_runs_on (t : ℚ) (ht : t < -2147483648) (fuel : Nat) :
    ∀ r : Int, -2147483648 ≤ r → scanLoop32 t fuel r = none := by
  induction fuel with
  | zero =>
    intro r _
    rfl
  | succ fuel ih =>
    intro r hr
    unfold scanLoop32
    have hq : t < cpParam r := by
      have h1 : ((-2147483648 : Int) : ℚ) ≤ ((r : Int) : ℚ) := by exact_mod_cast hr
      simp only [cpParam]
      push_cast at h1
      linarith
    simp only [hq, if_true]
    rw [ih _ (wrapInt32_inRange (r - 1)).1]

/-- C16, as stated, fails for `t` below `-2^31`: on one control point and
`t = -3000000000` the scan with its 32-bit index never exits, so it does not
return `floor(t) = -3000000000` after `3000000000` decrements. -/
theorem scan_below_int_range_counterexample :
    ¬ ∃ fuel : Nat, ∃ res : Int × Nat,
      findControlPoint32 [{ x := 0 }] (-3000000000) fuel = some res := by
  rintro ⟨fuel, res, h⟩
  unfold findControlPoint32 at h
  rw [scanLoop32_runs_on (-3000000000) (by norm_num) fuel _ (wrapInt32_inRange _).1] at h
  cases h

/-- C16 (amended): for every sequence length `0 ≤ N ≤ 2^31 - 1` and every
`t ≥ -2^31` (including `-2^31 ≤ t < 0`), the downward scan of `findControlPoint`
terminates, after exactly `max(0, N-1-floor(t))` decrements, returning
`min(N-1, floor(t))`: it returns `N-1` without a decrement when `t ≥ N-1`, and for
`-2^31 ≤ t < 0` it walks to the negative index `floor(t)`, which is at least
`-2^31`. -/
theorem findControlPoint32_scan (P : List Vec3) (t : ℚ) (hN : P.length ≤ 2147483647)
    (ht : -2147483648 ≤ t) :
    (∀ fuel : Nat, ((P.length : Int) - 1 - ⌊t⌋).toNat < fuel →
        findControlPoint32 P t fuel =
          some (min ((P.length : Int) - 1) ⌊t⌋, ((P.length : Int) - 1 - ⌊t⌋).toNat)) ∧
      ((((P.length : Int) - 1 - ⌊t⌋).toNat : Nat) : Int) = max 0 ((P.length : Int) - 1 - ⌊t⌋) ∧
      findControlPoint P t = min ((P.length : Int) - 1) ⌊t⌋ ∧
      (((P.length : Int) : ℚ) - 1 ≤ t → ∀ fuel : Nat, 1 ≤ fuel →
        findControlPoint32 P t fuel = some ((P.length : Int) - 1, 0)) ∧
      (t < 0 → min ((P.length : Int) - 1) ⌊t⌋ = ⌊t⌋ ∧ ⌊t⌋ < 0 ∧ -2147483648 ≤ ⌊t⌋) := by
  have hfl : -2147483648 ≤ ⌊t⌋ := by
    apply Int.le_floor.mpr
    push_cast
    exact ht
  have hstart : wrapInt32 (wrapInt32 (P.length : Int) - 1) = (P.length : Int) - 1 := by
    rw [wrapInt32_of_inRange (P.length : Int) (by omega) (by omega),
      wrapInt32_of_inRange _ (by omega) (by omega)]
  have hrun : ∀ fuel : Nat, ((P.length : Int) - 1 - ⌊t⌋).toNat < fuel →
      findControlPoint32 P t fuel =
        some (min ((P.length : Int) - 1) ⌊t⌋, ((P.length : Int) - 1 - ⌊t⌋).toNat) := by
    intro fuel hf
    unfold findControlPoint32
    simp only [hstart]
    exact scanLoop32_returns t hfl fuel _ (by omega) hf
  refine ⟨hrun, by omega, findControlPoint_eq P t, ?_, ?_⟩
  · intro hge fuel hfuel
    have h : (P.length : Int) - 1 ≤ ⌊t⌋ := by
      apply Int.le_floor.mpr
      push_cast
      exact hge
    rw [hrun fuel (by omega)]
    simp only [Option.some.injEq, Prod.mk.injEq]
    omega
  · intro hneg
    have h1 : ⌊t⌋ < 0 := Int.floor_lt.mpr (by simpa using hneg)
    omega

/-- C16 (amended), at three control points and `t = -5/2`: the scan returns `-3`
after `5` decrements. -/
theorem findControlPoint32_scan_witness :
    findControlPoint32 [{ x := 0 }, { x := 1 }, { y := 1 }] (-5 / 2) 6 =
      some (min ((([({ x := 0 } : Vec3), { x := 1 }, { y := 1 }].length : Nat) : Int) - 1)
          ⌊(-5 / 2 : ℚ)⌋,
        ((([({ x := 0 } : Vec3), { x := 1 }, { y := 1 }].length : Nat) : Int) - 1 -
          ⌊(-5 / 2 : ℚ)⌋).toNat) :=
  (findControlPoint32_scan [{ x := 0 }, { x := 1 }, { y := 1 }] (-5 / 2) (by simp)
    (by norm_num)).1 6 (by
      have h : ⌊(-5 / 2 : ℚ)⌋ = -3 := by
        rw [Int.floor_eq_iff]; norm_num
      rw [h]
      decide)

/-! ## The key handler -/

theorem clamp_bounds (val lo hi : Int) (h : lo ≤ hi) :
    lo ≤ clamp val lo hi ∧ clamp val lo hi ≤ hi := by
  unfold clamp
  split_ifs <;> omega

/-- From a state whose grabbed index is in range, every key is handled without
touching a vector out of bounds. -/
theorem onKeyDown_returns (newPoint : Nat → Vec3) (key : SDLKey) (shifted : Bool) (s : Editor)
    (h0 : 0 ≤ s.g_iGrabbed) (h1 : s.g_iGrabbed < (s.g_controlPoints.length : Int)) :
    ∃ s1, onKeyDown newPoint key shifted s = .ok s1 := by
  have hr := readAt_inRange s.g_controlPoints _ s.g_iGrabbed h0 h1 rfl
  have hlen : s.g_controlPoints.length ≠ 0 := by omega
  cases key <;>
    simp [onKeyDown, applyKey, removeControlPoint, moveGrabbed, hr, writeAt, h0, h1, hlen]

/-- C17: for every key and every prior editor state, when `onKeyDown` returns
and the control-point sequence is then non-empty (`N ≥ 1`), it leaves
`0 ≤ g_curveOrder ≤ N-1`, `0 ≤ g_iGrabbed ≤ N-1` and
`0 ≤ g_selectedFragment ≤ N-1`; so the order passed to `evaluateSpline` satisfies
`0 ≤ order < N`, and the evaluator returns a point for every `t ≥ 0`. -/
theorem onKeyDown_invariant (newPoint : Nat → Vec3) (key : SDLKey) (shifted : Bool)
    (s s1 : Editor) (h : onKeyDown newPoint key shifted s = .ok s1)
    (hN : 1 ≤ s1.g_controlPoints.length) :
    (0 ≤ s1.g_curveOrder ∧ s1.g_curveOrder ≤ (s1.g_controlPoints.length : Int) - 1) ∧
      (0 ≤ s1.g_iGrabbed ∧ s1.g_iGrabbed ≤ (s1.g_controlPoints.length : Int) - 1) ∧
      (0 ≤ s1.g_selectedFragment ∧
        s1.g_selectedFragment ≤ (s1.g_controlPoints.length : Int) - 1) ∧
      s1.g_curveOrder < (s1.g_controlPoints.length : Int) ∧
      (∀ tt : ℚ, 0 ≤ tt → ∃ p, evaluateSpline s1.g_controlPoints s1.g_curveOrder tt = .ok p) := by
  unfold onKeyDown at h
  cases h2 : applyKey newPoint key shifted s with
  | error e =>
    rw [h2] at h
    cases h
  | ok s2 =>
    simp only [h2] at h
    injection h with h
    subst h
    simp only at hN ⊢
    have hb : (0 : Int) ≤ (s2.g_controlPoints.length : Int) - 1 := by omega
    have hc := clamp_bounds s2.g_curveOrder 0 _ hb
    refine ⟨hc, clamp_bounds s2.g_iGrabbed 0 _ hb, clamp_bounds s2.g_selectedFragment 0 _ hb,
      by omega, ?_⟩
    intro tt htt
    exact ⟨_, evaluateSpline_eq_deBoor _ _ tt hN hc.1 (by omega) htt⟩

/-- C17, at three control points with order 2, on `PAGEUP`: the order is clamped
back to 2. -/
theorem onKeyDown_invariant_witness :
    (0 ≤ (2 : Int) ∧ (2 : Int) ≤ (([({ x := 0 } : Vec3), { x := 1 }, { y := 1 }].length : Nat) :
        Int) - 1) ∧
      (0 ≤ (0 : Int) ∧ (0 : Int) ≤ (([({ x := 0 } : Vec3), { x := 1 }, { y := 1 }].length : Nat) :
        Int) - 1) ∧
      (0 ≤ (1 : Int) ∧ (1 : Int) ≤ (([({ x := 0 } : Vec3), { x := 1 }, { y := 1 }].length : Nat) :
        Int) - 1) ∧
      (2 : Int) < (([({ x := 0 } : Vec3), { x := 1 }, { y := 1 }].length : Nat) : Int) ∧
      (∀ tt : ℚ, 0 ≤ tt →
        ∃ p, evaluateSpline [{ x := 0 }, { x := 1 }, { y := 1 }] 2 tt = .ok p) :=
  onKeyDown_invariant (fun _ => {}) SDLKey.PAGEUP false
    { g_selectedFragment := 1, g_iGrabbed := 0, g_bGrabbed := false,
      g_controlPoints := [{ x := 0 }, { x := 1 }, { y := 1 }], g_curveOrder := 2 }
    { g_selectedFragment := 1, g_iGrabbed := 0, g_bGrabbed := false,
      g_controlPoints := [{ x := 0 }, { x := 1 }, { y := 1 }], g_curveOrder := 2 }
    rfl (by simp)

/-! ## The loops of the rounded evaluator -/

end Minispline
